import Mathlib

/-
Verification of the batch job queue subsystem of OllamaCoder
(src/ollama_coder/batch/job_queue.py, processors.py, progress.py).

The SQLite-backed job store is modelled as a list of rows; every SQL
statement of the source is a single atomic step, matching the fact that
SQLite serializes individual statements.  Timestamps and the progress
field are rationals; Python dicts that the code builds are modelled as
flat association lists of JSON-like values; optional columns are Option.
-/

namespace OllamaCoder

/-- JSON-like value appearing in job payloads, results and metadata. -/
inductive JValue where
  | null : JValue
  | bool : Bool → JValue
  | num : ℚ → JValue
  | str : String → JValue
deriving DecidableEq, Repr

/-- Python dict with string keys, as stored in result and metadata columns. -/
abbrev Obj := List (String × JValue)

/-- Membership of a key in a dict, mirroring the Python in-operator. -/
def hasKey (o : Obj) (k : String) : Bool :=
  o.any (fun kv => kv.fst == k)

/-- Lookup of a key in a dict, mirroring Python subscript access. -/
def getKey (o : Obj) (k : String) : Option JValue :=
  (o.find? (fun kv => kv.fst == k)).map (fun kv => kv.snd)

/-- Job status enumeration, JobStatus in job_queue.py. -/
inductive JobStatus where
  | queued : JobStatus
  | running : JobStatus
  | completed : JobStatus
  | failed : JobStatus
  | cancelled : JobStatus
deriving DecidableEq, Repr

/-- Job record, the Job dataclass of job_queue.py; the same field set is the
schema of the jobs table, so this type also serves as the row type. -/
structure Job where
  id : String
  type : String
  data : Obj
  status : JobStatus
  progress : ℚ
  result : Option Obj
  error : Option String
  created_at : ℚ
  started_at : Option ℚ
  completed_at : Option ℚ
  metadata : Obj
deriving DecidableEq, Repr

/-- The jobs table of the SQLite database: a list of rows. -/
abbrev Store := List Job

/-- Result column written by update_job: json.dumps(job.result) if job.result
else None.  Python truthiness stores NULL both for None and for an empty
dict. -/
def storedResult (r : Option Obj) : Option Obj :=
  match r with
  | none => none
  | some kvs => if kvs.isEmpty then none else some kvs

/-- Row produced by the UPDATE statement of update_job for the row matching
the job id: status, progress, result, error, started_at, completed_at and
metadata are overwritten; id, type, data and created_at are untouched. -/
def mergeRow (j r : Job) : Job :=
  { r with
    status := j.status
    progress := j.progress
    result := storedResult j.result
    error := j.error
    started_at := j.started_at
    completed_at := j.completed_at
    metadata := j.metadata }

/-- JobQueue.update_job: UPDATE jobs SET ... WHERE id = job.id. -/
def updateJob (db : Store) (j : Job) : Store :=
  db.map (fun r => if r.id == j.id then mergeRow j r else r)

/-- JobQueue.get_job: SELECT * FROM jobs WHERE id = ? with fetchone, which
returns the first matching row; the JSON round trip of the stored columns
is the identity on the model. -/
def getJob (db : Store) (id : String) : Option Job :=
  db.find? (fun r => r.id == id)

/-- Row of the list with the least created_at, preferring the earlier row on
ties; models the ORDER BY created_at ASC LIMIT 1 subselect of
_get_next_job. -/
def minByCreatedAt : List Job → Option Job
  | [] => none
  | j :: rest =>
    match minByCreatedAt rest with
    | none => some j
    | some k => if k.created_at < j.created_at then some k else some j

/-- Row transformation of the claiming UPDATE: the row matching the selected
id becomes Running with started_at = now, all other rows are untouched. -/
def claimWrite (id0 : String) (now : ℚ) (r : Job) : Job :=
  if r.id == id0 then { r with status := .running, started_at := some now } else r

/-- JobQueue._get_next_job: the single atomic UPDATE ... WHERE id =
(SELECT id FROM jobs WHERE status = queued ORDER BY created_at ASC LIMIT 1)
RETURNING *.  Returns the claimed row, now Running with started_at = now,
together with the new table state. -/
def claimNextJob (db : Store) (now : ℚ) : Option Job × Store :=
  match minByCreatedAt (db.filter (fun r => r.status == .queued)) with
  | none => (none, db)
  | some pre =>
    (some { pre with status := .running, started_at := some now },
     db.map (claimWrite pre.id now))

/-- JobQueue.cancel_job: read the job; absent or terminal rows yield false
and no write; Queued or Running rows are overwritten to Cancelled with
completed_at = now. -/
def cancelJob (db : Store) (id : String) (now : ℚ) : Bool × Store :=
  match getJob db id with
  | none => (false, db)
  | some j =>
    if j.status == .queued || j.status == .running then
      (true, updateJob db { j with status := .cancelled, completed_at := some now })
    else
      (false, db)

/-- Worker success path in JobQueue._worker: status = COMPLETED, result =
processor return value, progress = 100.0, completed_at = now, then
update_job with the local job object held since the claim. -/
def finishCompleted (db : Store) (j : Job) (r : Obj) (now : ℚ) : Store :=
  updateJob db
    { j with status := .completed, result := some r, progress := 100, completed_at := some now }

/-- Worker failure path in JobQueue._worker: status = FAILED, error = message,
completed_at = now, then update_job. -/
def finishFailed (db : Store) (j : Job) (e : String) (now : ℚ) : Store :=
  updateJob db { j with status := .failed, error := some e, completed_at := some now }

/-- Error string written by the worker when no processor is registered. -/
def noProcessorError (t : String) : String :=
  "No processor registered for job type: " ++ t

/-- One worker handling of a claimed job: look up the processor of the job
type; unregistered types fail directly, otherwise the external processor
outcome decides between the success and failure writes. -/
def workerHandle (registered : List String) (run : Job → Except String Obj)
    (db : Store) (j : Job) (now : ℚ) : Store :=
  if registered.contains j.type then
    match run j with
    | .ok r => finishCompleted db j r now
    | .error e => finishFailed db j e now
  else
    finishFailed db j (noProcessorError j.type) now

/-- One iteration of the worker loop body of JobQueue._worker: claim the next
queued job and handle it; with no queued job the iteration leaves the
store unchanged. -/
def workerStep (registered : List String) (run : Job → Except String Obj)
    (db : Store) (now : ℚ) : Store :=
  match claimNextJob db now with
  | (none, db1) => db1
  | (some j, db1) => workerHandle registered run db1 j now

/-- Sequence of atomic claim operations, modelling many workers racing on
the store: SQLite serializes the single UPDATE statements, so any
concurrent execution is one such sequence.  Returns the claimed jobs in
order together with the final store. -/
def claimSeq (db : Store) (times : List ℚ) : List Job × Store :=
  match times with
  | [] => ([], db)
  | t :: ts =>
    match claimNextJob db t with
    | (none, db1) =>
      let rec2 := claimSeq db1 ts
      (rec2.fst, rec2.snd)
    | (some j, db1) =>
      let rec2 := claimSeq db1 ts
      (j :: rec2.fst, rec2.snd)

/-- ProgressTracker dataclass of progress.py; the timing fields play no role
in the counter claims and are omitted, counters are Python ints. -/
structure ProgressTracker where
  total : ℤ
  processed : ℤ := 0
  successful : ℤ := 0
  failed : ℤ := 0
  skipped : ℤ := 0
  current_item : Option String := none
deriving DecidableEq, Repr

/-- ProgressTracker.increment: processed always grows by one; skip wins over
success for the outcome counter; current_item is replaced only by a truthy
(nonempty) string, matching the Python truthiness test. -/
def ProgressTracker.increment (t : ProgressTracker) (success : Bool := true)
    (skip : Bool := false) (current_item : Option String := none) : ProgressTracker :=
  let t1 := { t with processed := t.processed + 1 }
  let t2 :=
    if skip then { t1 with skipped := t1.skipped + 1 }
    else if success then { t1 with successful := t1.successful + 1 }
    else { t1 with failed := t1.failed + 1 }
  match current_item with
  | some c => if c == "" then t2 else { t2 with current_item := some c }
  | none => t2

/-- Completion percentage formula of ProgressTracker.percentage: 100 for a
zero total, otherwise min(100, processed / total * 100). -/
def percentageOf (processed total : ℤ) : ℚ :=
  if total = 0 then 100 else min 100 ((processed : ℚ) / (total : ℚ) * 100)

/-- ProgressTracker.percentage property. -/
def ProgressTracker.percentage (t : ProgressTracker) : ℚ :=
  percentageOf t.processed t.total

/-- Counter invariant stated by the spec for the tracker. -/
def trackerInvariant (t : ProgressTracker) : Prop :=
  t.processed = t.successful + t.failed + t.skipped

/-
Processors (processors.py).  Every process method first extracts the item
list from job.data and returns an error dict when the list is empty; the
nonempty branch drives the external agent graph, shell commands or MCP
tools, which the spec scopes out as externally supplied callables, so it
is abstracted as an explicit function argument.
-/

/-- BatchAgentProcessor.process: the empty-tasks guard of lines 47 to 52;
the nonempty branch is the external agent-graph batch run. -/
def agentProcess (tasks : List Obj) (rest : List Obj → Obj) : Obj :=
  if tasks.isEmpty then [("error", JValue.str "No tasks provided")] else rest tasks

/-- BatchValidationProcessor.process empty-targets guard. -/
def validationProcess (targets : List Obj) (rest : List Obj → Obj) : Obj :=
  if targets.isEmpty then [("error", JValue.str "No targets provided")] else rest targets

/-- BatchTestProcessor.process empty-modules guard. -/
def testProcess (modules : List Obj) (rest : List Obj → Obj) : Obj :=
  if modules.isEmpty then [("error", JValue.str "No modules provided")] else rest modules

/-- BatchMCPProcessor.process empty-operations guard. -/
def mcpProcess (operations : List Obj) (rest : List Obj → Obj) : Obj :=
  if operations.isEmpty then [("error", JValue.str "No operations provided")] else rest operations

/-- Outcome of an external shell command: exit code with captured output. -/
structure CmdResult where
  returncode : ℤ
  stdout : String
  stderr : String
deriving DecidableEq, Repr

/-- Per-target result record of BatchValidationProcessor._validate_target:
passed on exit code 0 or on exit code 5 (no tests collected). -/
def validateTarget (targetId path : String) (c : CmdResult) : Obj :=
  let success := c.returncode == 0 || c.returncode == 5
  [("target_id", JValue.str targetId),
   ("path", JValue.str path),
   ("status", JValue.str (if success then "passed" else "failed")),
   ("exit_code", JValue.num (c.returncode : ℚ)),
   ("stdout", JValue.str c.stdout),
   ("stderr", JValue.str c.stderr)]

/-- Per-module result record of BatchTestProcessor._run_test_module: passed
exactly on exit code 0. -/
def runTestModule (moduleId path : String) (c : CmdResult) : Obj :=
  let success := c.returncode == 0
  [("module_id", JValue.str moduleId),
   ("path", JValue.str path),
   ("status", JValue.str (if success then "passed" else "failed")),
   ("exit_code", JValue.num (c.returncode : ℚ)),
   ("stdout", JValue.str c.stdout),
   ("stderr", JValue.str c.stderr)]

/-
Persisted progress trace.  BatchAgentProcessor.process walks the task list
in chunks (for i in range(0, len(tasks), chunk_size)); each sub-task calls
tracker.increment exactly once before the chunk gather returns, so when
lines 89 to 92 persist job.progress = tracker.percentage after chunk k the
tracker has processed = min((k+1) * chunk_size, n).  On success the worker
then writes the final job.progress = 100.0.
-/

/-- Number of chunk iterations of range(0, n, cs), the ceiling of n / cs. -/
def numChunks (n cs : ℕ) : ℕ := (n + cs - 1) / cs

/-- Tracker processed counts at the per-chunk persist points. -/
def chunkEnds (n cs : ℕ) : List ℕ :=
  (List.range (numChunks n cs)).map (fun k => min ((k + 1) * cs) n)

/-- All progress values persisted for one job that runs to completion: the
per-chunk percentages followed by the final 100 written by the worker. -/
def persistedProgress (n cs : ℕ) : List ℚ :=
  (chunkEnds n cs).map (fun p : ℕ => percentageOf (p : ℤ) (n : ℤ)) ++ [100]

/-- Lower-cased character list of a string. -/
def lowerChars (s : String) : List Char :=
  s.data.map Char.toLower

/-- Case-insensitive substring test, reading of the spec phrase about an
error mentioning a given text. -/
def mentions (needle hay : String) : Bool :=
  (List.range ((lowerChars hay).length + 1)).any
    (fun i => (lowerChars needle).isPrefixOf ((lowerChars hay).drop i))

/-- Invariant of claim C3 on one job record: result set exactly on Completed,
error set exactly on Failed, both clear on Queued and Running. -/
def statusResultOk (j : Job) : Bool :=
  (j.result.isSome == (j.status == .completed)) &&
  (j.error.isSome == (j.status == .failed)) &&
  (!(j.status == .queued || j.status == .running) || (j.result.isNone && j.error.isNone))

/-- Python truthiness of an optional dict, deciding whether update_job
stores the result column or NULL. -/
def resultTruthy : Option Obj → Bool
  | none => false
  | some o => !o.isEmpty

/-
Helper lemmas about the store operations.
-/

theorem mergeRow_id (j r : Job) : (mergeRow j r).id = r.id := rfl

theorem claimWrite_id (id0 : String) (now : ℚ) (r : Job) :
    (claimWrite id0 now r).id = r.id := by
  unfold claimWrite; split <;> rfl

theorem getJob_map (db : Store) (f : Job → Job) (hf : ∀ r, (f r).id = r.id)
    (id : String) : getJob (db.map f) id = (getJob db id).map f := by
  induction db with
  | nil => rfl
  | cons a l ih =>
    simp only [getJob, List.map_cons, List.find?]
    rw [hf a]
    cases h : (a.id == id) with
    | true => rfl
    | false => exact ih

theorem getJob_id {db : Store} {id : String} {r : Job}
    (h : getJob db id = some r) : r.id = id := by
  have hp := List.find?_some h
  exact eq_of_beq hp

theorem getJob_mem {db : Store} {id : String} {r : Job}
    (h : getJob db id = some r) : r ∈ db :=
  List.mem_of_find?_eq_some h

theorem getJob_of_mem_nodup {db : Store} {r : Job}
    (hnd : (db.map Job.id).Nodup) (hmem : r ∈ db) : getJob db r.id = some r := by
  induction db with
  | nil => cases hmem
  | cons a l ih =>
    simp only [List.map_cons, List.nodup_cons] at hnd
    rcases List.mem_cons.mp hmem with h | h
    · subst h
      simp [getJob, List.find?]
    · have hne : a.id ≠ r.id := by
        intro hcontra
        exact hnd.1 (hcontra ▸ List.mem_map_of_mem Job.id h)
      simp only [getJob, List.find?]
      have : (a.id == r.id) = false := beq_false_of_ne hne
      rw [this]
      exact ih hnd.2 h

theorem eq_of_mem_nodup_ids {db : Store} (hnd : (db.map Job.id).Nodup)
    {r1 r2 : Job} (h1 : r1 ∈ db) (h2 : r2 ∈ db) (heq : r1.id = r2.id) :
    r1 = r2 := by
  induction db with
  | nil => cases h1
  | cons a l ih =>
    simp only [List.map_cons, List.nodup_cons] at hnd
    rcases List.mem_cons.mp h1 with ha1 | ha1 <;>
      rcases List.mem_cons.mp h2 with ha2 | ha2
    · exact ha1.trans ha2.symm
    · exfalso; apply hnd.1; subst ha1; rw [heq]; exact List.mem_map_of_mem Job.id ha2
    · exfalso; apply hnd.1; subst ha2; rw [← heq]; exact List.mem_map_of_mem Job.id ha1
    · exact ih hnd.2 ha1 ha2

theorem ids_map_of_id_preserved (db : Store) (f : Job → Job)
    (hf : ∀ r, (f r).id = r.id) : (db.map f).map Job.id = db.map Job.id := by
  induction db with
  | nil => rfl
  | cons a l ih => simp [hf a, ih]

theorem ids_updateJob (db : Store) (j : Job) :
    (updateJob db j).map Job.id = db.map Job.id := by
  unfold updateJob
  apply ids_map_of_id_preserved
  intro r
  by_cases h : (r.id == j.id) = true <;> simp [h, mergeRow_id]

theorem getJob_updateJob (db : Store) (j : Job) (id : String) :
    getJob (updateJob db j) id =
      (getJob db id).map (fun r => if r.id == j.id then mergeRow j r else r) := by
  unfold updateJob
  apply getJob_map
  intro r
  by_cases h : (r.id == j.id) = true <;> simp [h, mergeRow_id]

theorem getJob_updateJob_self {db : Store} {j : Job} {r : Job}
    (h : getJob db j.id = some r) :
    getJob (updateJob db j) j.id = some (mergeRow j r) := by
  rw [getJob_updateJob, h]
  have hid : r.id = j.id := getJob_id h
  simp [hid]

theorem minByCreatedAt_mem : ∀ {l : List Job} {j : Job},
    minByCreatedAt l = some j → j ∈ l := by
  intro l
  induction l with
  | nil => intro j h; cases h
  | cons a l ih =>
    intro j h
    unfold minByCreatedAt at h
    split at h
    · cases h; exact List.mem_cons_self a l
    · rename_i k hk
      split at h
      · cases h; exact List.mem_cons_of_mem a (ih hk)
      · cases h; exact List.mem_cons_self a l

theorem minByCreatedAt_le : ∀ {l : List Job} {j : Job},
    minByCreatedAt l = some j → ∀ x ∈ l, j.created_at ≤ x.created_at := by
  intro l
  induction l with
  | nil => intro j h; cases h
  | cons a l ih =>
    intro j h x hx
    unfold minByCreatedAt at h
    split at h
    · rename_i hnone
      cases h
      have hl : l = [] := by
        cases l with
        | nil => rfl
        | cons b m =>
          exfalso
          unfold minByCreatedAt at hnone
          split at hnone <;> first | cases hnone | (split at hnone <;> cases hnone)
      subst hl
      rcases List.mem_cons.mp hx with h | h
      · exact h ▸ le_refl _
      · cases h
    · rename_i k hk
      split at h
      · rename_i hlt
        cases h
        rcases List.mem_cons.mp hx with hxa | hxl
        · exact hxa ▸ le_of_lt hlt
        · exact ih hk x hxl
      · rename_i hlt
        cases h
        rcases List.mem_cons.mp hx with hxa | hxl
        · exact hxa ▸ le_refl _
        · exact le_trans (not_lt.mp hlt) (ih hk x hxl)

theorem minByCreatedAt_eq_none : ∀ {l : List Job},
    minByCreatedAt l = none ↔ l = [] := by
  intro l
  cases l with
  | nil => simp [minByCreatedAt]
  | cons a m =>
    constructor
    · intro h
      unfold minByCreatedAt at h
      split at h
      · cases h
      · split at h <;> cases h
    · intro h; cases h

theorem claim_none_iff (db : Store) (now : ℚ) :
    (claimNextJob db now).fst = none ↔ ∀ r ∈ db, r.status ≠ .queued := by
  unfold claimNextJob
  cases hm : minByCreatedAt (db.filter (fun r => r.status == .queued)) with
  | none =>
    simp only [true_iff]
    intro r hr hq
    have hfil : db.filter (fun r => r.status == .queued) = [] :=
      minByCreatedAt_eq_none.mp hm
    have hmem : r ∈ db.filter (fun r => r.status == .queued) :=
      List.mem_filter.mpr ⟨hr, by simp [hq]⟩
    rw [hfil] at hmem
    cases hmem
  | some pre =>
    have hpre := minByCreatedAt_mem hm
    have hmem := List.mem_filter.mp hpre
    constructor
    · intro h; simp at h
    · intro hno
      exact absurd (eq_of_beq hmem.2) (hno pre hmem.1)

theorem claim_some_spec {db : Store} {now : ℚ} {j : Job}
    (h : (claimNextJob db now).fst = some j) :
    ∃ pre, pre ∈ db ∧ pre.status = .queued ∧
      (∀ q ∈ db, q.status = .queued → pre.created_at ≤ q.created_at) ∧
      j = { pre with status := .running, started_at := some now } ∧
      (claimNextJob db now).snd = db.map (claimWrite pre.id now) := by
  unfold claimNextJob at h ⊢
  cases hm : minByCreatedAt (db.filter (fun r => r.status == .queued)) with
  | none => rw [hm] at h; simp at h
  | some pre =>
    rw [hm] at h
    have h2 : some { pre with status := JobStatus.running, started_at := some now } =
        some j := h
    have hj : j = { pre with status := .running, started_at := some now } :=
      (Option.some_inj.mp h2).symm
    have hpre := minByCreatedAt_mem hm
    have hmem := List.mem_filter.mp hpre
    refine ⟨pre, hmem.1, eq_of_beq hmem.2, ?_, hj, rfl⟩
    intro q hq hqs
    exact minByCreatedAt_le hm q (List.mem_filter.mpr ⟨hq, by simp [hqs]⟩)

theorem claim_fst_none_snd {db : Store} {now : ℚ}
    (h : (claimNextJob db now).fst = none) : (claimNextJob db now).snd = db := by
  unfold claimNextJob at h ⊢
  cases hm : minByCreatedAt (db.filter (fun r => r.status == .queued)) with
  | none => rfl
  | some pre => rw [hm] at h; simp at h

theorem ids_claim (db : Store) (now : ℚ) :
    ((claimNextJob db now).snd).map Job.id = db.map Job.id := by
  unfold claimNextJob
  cases hm : minByCreatedAt (db.filter (fun r => r.status == .queued)) with
  | none => rfl
  | some pre => exact ids_map_of_id_preserved db _ (claimWrite_id pre.id now)

theorem claimWrite_of_queued {id0 : String} {now : ℚ} {r : Job}
    (h : (claimWrite id0 now r).status = .queued) : claimWrite id0 now r = r := by
  unfold claimWrite at h ⊢
  split at h
  · exact absurd h (by simp)
  · rename_i hb
    rw [if_neg hb]

theorem claim_snd_queued_back {db : Store} {now : ℚ} {r1 : Job}
    (h1 : r1 ∈ (claimNextJob db now).snd) (hq : r1.status = .queued) :
    r1 ∈ db := by
  unfold claimNextJob at h1
  cases hm : minByCreatedAt (db.filter (fun r => r.status == .queued)) with
  | none => rw [hm] at h1; exact h1
  | some pre =>
    rw [hm] at h1
    rcases List.mem_map.mp h1 with ⟨r0, hr0, hw⟩
    have hid : claimWrite pre.id now r0 = r0 := claimWrite_of_queued (hw ▸ hq)
    rw [← hw, hid]
    exact hr0

theorem claim_snd_no_queued_claimed {db : Store} {now : ℚ} {j : Job}
    (h : (claimNextJob db now).fst = some j) :
    ∀ r1 ∈ (claimNextJob db now).snd, r1.id = j.id → r1.status ≠ .queued := by
  rcases claim_some_spec h with ⟨pre, _, _, _, hj, hsnd⟩
  intro r1 hr1 hid hq
  rw [hsnd] at hr1
  rcases List.mem_map.mp hr1 with ⟨r0, _, hw⟩
  have hjid : j.id = pre.id := by rw [hj]
  unfold claimWrite at hw
  by_cases hb : (r0.id == pre.id) = true
  · rw [if_pos hb] at hw
    rw [← hw] at hq
    simp at hq
  · rw [if_neg hb] at hw
    apply hb
    rw [hw, hid, hjid]
    simp

theorem getJob_claim_snd_self {db : Store} {now : ℚ} {j : Job}
    (hclaim : (claimNextJob db now).fst = some j)
    (hnd : (db.map Job.id).Nodup) :
    getJob (claimNextJob db now).snd j.id = some j := by
  rcases claim_some_spec hclaim with ⟨pre, hmem, _, _, hjeq, hsnd⟩
  have hjid : j.id = pre.id := by rw [hjeq]
  rw [hsnd, hjid, getJob_map db _ (claimWrite_id pre.id now),
    getJob_of_mem_nodup hnd hmem]
  have hcw : claimWrite pre.id now pre =
      { pre with status := .running, started_at := some now } := by
    unfold claimWrite
    simp
  show some (claimWrite pre.id now pre) = some j
  rw [hcw, ← hjeq]

theorem getJob_claim_snd_other {db : Store} {now : ℚ} {j : Job}
    (hclaim : (claimNextJob db now).fst = some j)
    (id2 : String) (hne : id2 ≠ j.id) :
    getJob (claimNextJob db now).snd id2 = getJob db id2 := by
  rcases claim_some_spec hclaim with ⟨pre, _, _, _, hjeq, hsnd⟩
  have hjid : j.id = pre.id := by rw [hjeq]
  rw [hsnd, getJob_map db _ (claimWrite_id pre.id now)]
  cases hg : getJob db id2 with
  | none => rfl
  | some r =>
    have hrid : r.id = id2 := getJob_id hg
    have hcw : claimWrite pre.id now r = r := by
      unfold claimWrite
      have hbf : (r.id == pre.id) = false := by
        apply beq_false_of_ne
        rw [hrid, ← hjid]
        exact hne
      rw [hbf]
      simp
    show some (claimWrite pre.id now r) = some r
    rw [hcw]

theorem claimSeq_sound (times : List ℚ) : ∀ (db : Store),
    (((claimSeq db times).fst).map Job.id).Nodup ∧
    (∀ j ∈ (claimSeq db times).fst, ∃ r ∈ db, r.id = j.id ∧ r.status = .queued) := by
  induction times with
  | nil =>
    intro db
    exact ⟨List.nodup_nil, by intro j h; cases h⟩
  | cons t ts ih =>
    intro db
    rcases hc : claimNextJob db t with ⟨o, db1⟩
    cases o with
    | none =>
      have hfst : (claimNextJob db t).fst = none := by rw [hc]
      have hsnd : db1 = db := by
        have := claim_fst_none_snd hfst
        rw [hc] at this
        exact this
      simp only [claimSeq, hc]
      rw [hsnd]
      exact ih db
    | some j =>
      have hfst : (claimNextJob db t).fst = some j := by rw [hc]
      have hsnd1 : (claimNextJob db t).snd = db1 := by rw [hc]
      rcases claim_some_spec hfst with ⟨pre, hpre_mem, hpre_q, _, hj, _⟩
      have hjid : j.id = pre.id := by rw [hj]
      rcases ih db1 with ⟨ihnd, ihsound⟩
      have hnotin : j.id ∉ ((claimSeq db1 ts).fst).map Job.id := by
        intro hmemid
        rcases List.mem_map.mp hmemid with ⟨j2, hj2, hid2⟩
        rcases ihsound j2 hj2 with ⟨r, hr_mem, hr_id, hr_q⟩
        exact claim_snd_no_queued_claimed hfst r (hsnd1 ▸ hr_mem)
          (hr_id.trans hid2) hr_q
      constructor
      · simp only [claimSeq, hc, List.map_cons, List.nodup_cons]
        exact ⟨hnotin, ihnd⟩
      · simp only [claimSeq, hc]
        intro j2 hj2
        rcases List.mem_cons.mp hj2 with heq | hmem
        · exact ⟨pre, hpre_mem, by rw [heq, hjid], hpre_q⟩
        · rcases ihsound j2 hmem with ⟨r, hr_mem, hr_id, hr_q⟩
          exact ⟨r, claim_snd_queued_back (hsnd1 ▸ hr_mem) hr_q, hr_id, hr_q⟩

/-- Fresh job record as add_job inserts it: Queued, progress 0, no result,
no error, no started_at or completed_at. -/
def mkJob (i t : String) (st : JobStatus) (c : ℚ) : Job :=
  { id := i, type := t, data := [], status := st, progress := 0, result := none,
    error := none, created_at := c, started_at := none, completed_at := none,
    metadata := [] }

/-- C1: _get_next_job returns absent exactly when no Queued job exists;
otherwise it returns one Queued job of least created_at, atomically rewritten
to Running with started_at = now in the store, leaving every other record
untouched; and across any serialized sequence of concurrent claim calls no
job id is ever claimed twice. -/
theorem claim_next_job_correct (db : Store) (now : ℚ)
    (hnd : (db.map Job.id).Nodup) :
    ((claimNextJob db now).fst = none ↔ ∀ r ∈ db, r.status ≠ .queued)
  ∧ (∀ j, (claimNextJob db now).fst = some j →
      ∃ pre ∈ db, pre.status = .queued
        ∧ (∀ q ∈ db, q.status = .queued → pre.created_at ≤ q.created_at)
        ∧ j = { pre with status := .running, started_at := some now }
        ∧ getJob (claimNextJob db now).snd j.id = some j
        ∧ (∀ id2, id2 ≠ j.id → getJob (claimNextJob db now).snd id2 = getJob db id2))
  ∧ (∀ times : List ℚ, (((claimSeq db times).fst).map Job.id).Nodup) := by
  refine ⟨claim_none_iff db now, ?_, fun times => (claimSeq_sound times db).1⟩
  intro j hj
  rcases claim_some_spec hj with ⟨pre, hmem, hq, hmin, hjeq, _⟩
  exact ⟨pre, hmem, hq, hmin, hjeq, getJob_claim_snd_self hj hnd,
    fun id2 hne => getJob_claim_snd_other hj id2 hne⟩

/-- Concrete store for the C1 witness: two Queued jobs and a Completed one. -/
def dbW1 : Store :=
  [mkJob "a" "agent" .queued 3, mkJob "b" "agent" .queued 1,
   mkJob "c" "agent" .completed 0]

/-- Witness for C1 at a concrete store and claim times. -/
theorem claim_next_job_correct_witness :
    (((claimSeq dbW1 [10, 11, 12]).fst).map Job.id).Nodup :=
  (claim_next_job_correct dbW1 10 (by decide)).2.2 [10, 11, 12]

/-
Claim C2: terminal stability.
-/

/-- Running job held by a worker since its claim. -/
def jobRunC2 : Job := { mkJob "j1" "agent" .running 0 with started_at := some 1 }

/-- Store holding the one Running job. -/
def dbC2 : Store := [jobRunC2]

/-- Store after cancel_job marks the Running job Cancelled. -/
def dbC2c : Store := (cancelJob dbC2 "j1" 2).snd

/-- Store after the worker that claimed the job finishes successfully and
performs its unconditional final update_job write. -/
def dbC2f : Store := finishCompleted dbC2c jobRunC2 [("ok", JValue.bool true)] 3

/-- C2 counterexample: cancel_job moves a Running job to the terminal state
Cancelled, yet the final worker write afterwards overwrites the record to
Completed, so a terminal job does change status again. -/
theorem cancelled_job_overwritten_by_worker :
    (cancelJob dbC2 "j1" 2).fst = true
  ∧ (getJob dbC2c "j1").map Job.status = some .cancelled
  ∧ (getJob dbC2f "j1").map Job.status = some .completed := by decide

/-- C2 amended: cancel_job on a terminal or absent job returns false and
leaves the store unchanged, and the claim operation never touches the record
of a terminal job; the remaining part of the claim fails, since the worker
finish write overwrites a job cancelled while Running. -/
theorem terminal_jobs_stable (db : Store) (id : String) (now : ℚ)
    (hnd : (db.map Job.id).Nodup)
    (h1 : (getJob db id).map Job.status ≠ some .queued)
    (h2 : (getJob db id).map Job.status ≠ some .running) :
    cancelJob db id now = (false, db)
  ∧ getJob (claimNextJob db now).snd id = getJob db id := by
  constructor
  · unfold cancelJob
    cases hg : getJob db id with
    | none => rfl
    | some r =>
      have hq : r.status ≠ .queued := by
        intro h; exact h1 (by simp [hg, h])
      have hr : r.status ≠ .running := by
        intro h; exact h2 (by simp [hg, h])
      have hb : (r.status == JobStatus.queued || r.status == JobStatus.running) = false := by
        rw [beq_false_of_ne hq, beq_false_of_ne hr]
        rfl
      simp [hb]
  · cases hc : (claimNextJob db now).fst with
    | none => rw [claim_fst_none_snd hc]
    | some j =>
      rcases claim_some_spec hc with ⟨pre, hpre_mem, hpre_q, _, _, hsnd⟩
      rw [hsnd, getJob_map db _ (claimWrite_id pre.id now)]
      cases hg : getJob db id with
      | none => rfl
      | some r =>
        have hrid : r.id = id := getJob_id hg
        have hrq : r.status ≠ .queued := by
          intro h; exact h1 (by simp [hg, h])
        have hrne : r.id ≠ pre.id := by
          intro h
          exact hrq ((eq_of_mem_nodup_ids hnd (getJob_mem hg) hpre_mem h) ▸ hpre_q)
        have hcw : claimWrite pre.id now r = r := by
          unfold claimWrite
          rw [beq_false_of_ne hrne]
          simp
        show some (claimWrite pre.id now r) = some r
        rw [hcw]

/-- Store with one Completed job for the C2 witness. -/
def dbW2 : Store := [mkJob "done" "agent" .completed 0]

/-- Witness for the amended C2 at a concrete terminal job. -/
theorem terminal_jobs_stable_witness :
    cancelJob dbW2 "done" 7 = (false, dbW2)
  ∧ getJob (claimNextJob dbW2 7).snd "done" = getJob dbW2 "done" :=
  terminal_jobs_stable dbW2 "done" 7 (by decide) (by decide) (by decide)

/-
Claim C3: result and error nullability at each status.
-/

/-- Queued job before the worker writes its terminal state. -/
def jobC3q : Job := mkJob "j1" "agent" .queued 0

/-- Store holding the queued job. -/
def dbC3pre : Store := [jobC3q]

/-- Worker-side job object at success with an empty result dict. -/
def jobC3done : Job :=
  { jobC3q with
    status := .completed
    progress := 100
    result := some []
    started_at := some 1
    completed_at := some 2 }

/-- Store after update_job persists the Completed job with empty result. -/
def dbC3 : Store := updateJob dbC3pre jobC3done

/-- C3 counterexample: a Completed job whose processor returned the empty
mapping is persisted by update_job with a NULL result column, so get_job
reads it back Completed with result null and the invariant fails. -/
theorem empty_result_read_back_null :
    jobC3done.status = .completed
  ∧ jobC3done.result = some []
  ∧ (getJob dbC3 "j1").map Job.status = some .completed
  ∧ (getJob dbC3 "j1").map Job.result = some none
  ∧ (getJob dbC3 "j1").map statusResultOk = some false := by decide

/-- C3 amended: the invariant survives the update_job write and get_job
read-back for every job satisfying it whose Completed result is truthy
(a non-empty mapping); the empty mapping is the one exception, shown by the
counterexample. -/
theorem update_read_invariant (db : Store) (j : Job) (r : Job)
    (hget : getJob db j.id = some r)
    (hok : statusResultOk j = true)
    (htr : j.status = .completed → resultTruthy j.result = true) :
    getJob (updateJob db j) j.id = some (mergeRow j r)
  ∧ statusResultOk (mergeRow j r) = true := by
  refine ⟨getJob_updateJob_self hget, ?_⟩
  cases hs : j.status <;> rcases hr : j.result with _ | o <;>
    simp_all [statusResultOk, storedResult, resultTruthy, mergeRow]

/-- Worker-side Completed job with a truthy result for the C3 witness. -/
def jobW3 : Job :=
  { jobC3q with
    status := .completed
    progress := 100
    result := some [("summary", JValue.str "ok")]
    started_at := some 1
    completed_at := some 2 }

/-- Witness for the amended C3 at a concrete truthy Completed write. -/
theorem update_read_invariant_witness :
    getJob (updateJob dbC3pre jobW3) jobW3.id = some (mergeRow jobW3 jobC3q)
  ∧ statusResultOk (mergeRow jobW3 jobC3q) = true :=
  update_read_invariant dbC3pre jobW3 jobC3q (by decide) (by decide)
    (fun _ => by decide)

/-
Claim C4: exit-code to status mapping of the validation and test processors.
-/

/-- Command outcome with exit code 5 and the no-tests-ran output. -/
def cmd5 : CmdResult := { returncode := 5, stdout := "no tests ran", stderr := "" }

/-- C4 counterexample: the test processor maps exit code 5 to failed, so the
claimed passed-iff-code-0-or-5 equivalence is false for test modules. -/
theorem test_module_exit5_fails :
    getKey (runTestModule "m1" "tests/test_a.py" cmd5) "status"
      = some (JValue.str "failed")
  ∧ ¬ (getKey (runTestModule "m1" "tests/test_a.py" cmd5) "status"
        = some (JValue.str "passed") ↔ (cmd5.returncode = 0 ∨ cmd5.returncode = 5)) := by
  constructor
  · decide
  · intro h
    exact absurd (h.mpr (Or.inr (by decide))) (by decide)

/-- C4 amended: a validation target is passed iff the exit code is 0 or 5;
a test module is passed iff the exit code is 0, with every other code
failed.  The exit-code-5 exception applies to the validation processor
only. -/
theorem exit_code_status (targetId tpath moduleId mpath : String) (c : CmdResult) :
    (getKey (validateTarget targetId tpath c) "status" = some (JValue.str "passed")
      ↔ (c.returncode = 0 ∨ c.returncode = 5))
  ∧ (getKey (runTestModule moduleId mpath c) "status" = some (JValue.str "passed")
      ↔ c.returncode = 0)
  ∧ (¬ (c.returncode = 0 ∨ c.returncode = 5) →
      getKey (validateTarget targetId tpath c) "status" = some (JValue.str "failed"))
  ∧ (¬ c.returncode = 0 →
      getKey (runTestModule moduleId mpath c) "status" = some (JValue.str "failed")) := by
  unfold validateTarget runTestModule getKey
  by_cases h0 : c.returncode = 0 <;> by_cases h5 : c.returncode = 5 <;>
    simp_all

/-- Witness for the amended C4: exit code 5 passes validation, and a
nonzero non-5 exit code fails a test module. -/
theorem exit_code_status_witness :
    getKey (validateTarget "t1" "src/a.py" cmd5) "status" = some (JValue.str "passed")
  ∧ getKey (runTestModule "m1" "tests/test_a.py"
      { returncode := 1, stdout := "", stderr := "" }) "status"
      = some (JValue.str "failed") :=
  ⟨(exit_code_status "t1" "src/a.py" "m1" "tests/test_a.py" cmd5).1.mpr
      (Or.inr (by decide)),
   (exit_code_status "t1" "src/a.py" "m1" "tests/test_a.py"
      { returncode := 1, stdout := "", stderr := "" }).2.2.2 (by decide)⟩

/-
Claim C5: empty item lists are soft failures.
-/

/-- C5: with an empty item list every processor returns its error dict at
once, for every possible continuation of the nonempty branch, the dict has
an error key, and the worker completion write leaves the job Completed with
that dict as its non-null result. -/
theorem empty_batch_soft_failure :
    (∀ rest, agentProcess [] rest = [("error", JValue.str "No tasks provided")])
  ∧ (∀ rest, validationProcess [] rest = [("error", JValue.str "No targets provided")])
  ∧ (∀ rest, testProcess [] rest = [("error", JValue.str "No modules provided")])
  ∧ (∀ rest, mcpProcess [] rest = [("error", JValue.str "No operations provided")])
  ∧ (∀ rest, hasKey (agentProcess [] rest) "error" = true
      ∧ hasKey (validationProcess [] rest) "error" = true
      ∧ hasKey (testProcess [] rest) "error" = true
      ∧ hasKey (mcpProcess [] rest) "error" = true)
  ∧ (∀ (db : Store) (j : Job) (now : ℚ) (rest : List Obj → Obj) (r : Job),
      getJob db j.id = some r →
        (getJob (finishCompleted db j (agentProcess [] rest) now) j.id).map Job.status
          = some .completed
      ∧ (getJob (finishCompleted db j (agentProcess [] rest) now) j.id).map Job.result
          = some (some [("error", JValue.str "No tasks provided")])) := by
  refine ⟨fun _ => rfl, fun _ => rfl, fun _ => rfl, fun _ => rfl,
    fun _ => ⟨rfl, rfl, rfl, rfl⟩, ?_⟩
  intro db j now rest r hget
  have hid : ({ j with
      status := JobStatus.completed
      result := some (agentProcess [] rest)
      progress := 100
      completed_at := some now } : Job).id = j.id := rfl
  unfold finishCompleted
  rw [← hid] at hget
  rw [getJob_updateJob_self hget]
  constructor <;> rfl

/-- Fresh queued job and store for the C5 witness. -/
def dbW5 : Store := [mkJob "j5" "batch_agent" .queued 0]

/-- Trivial continuation standing for the external nonempty branch. -/
def restW : List Obj → Obj := fun _ => []

/-- Witness for C5 at a concrete store, job and continuation. -/
theorem empty_batch_soft_failure_witness :
    (getJob (finishCompleted dbW5 (mkJob "j5" "batch_agent" .queued 0)
        (agentProcess [] restW) 4) "j5").map Job.status = some .completed
  ∧ (getJob (finishCompleted dbW5 (mkJob "j5" "batch_agent" .queued 0)
        (agentProcess [] restW) 4) "j5").map Job.result
      = some (some [("error", JValue.str "No tasks provided")]) :=
  empty_batch_soft_failure.2.2.2.2.2 dbW5 (mkJob "j5" "batch_agent" .queued 0) 4
    restW (mkJob "j5" "batch_agent" .queued 0) (by decide)

/-
Claim C6: tracker counter invariant and monotonicity.
-/

/-- C6: increment preserves processed = successful + failed + skipped and
never decreases any of the four counters. -/
theorem increment_counters (t : ProgressTracker) (success skip : Bool)
    (c : Option String) (hinv : trackerInvariant t) :
    trackerInvariant (t.increment success skip c)
  ∧ t.processed ≤ (t.increment success skip c).processed
  ∧ t.successful ≤ (t.increment success skip c).successful
  ∧ t.failed ≤ (t.increment success skip c).failed
  ∧ t.skipped ≤ (t.increment success skip c).skipped := by
  unfold ProgressTracker.increment trackerInvariant at *
  rcases c with _ | s
  · cases skip <;> cases success <;> simp_all <;> omega
  · by_cases hs : s = "" <;> cases skip <;> cases success <;> simp_all <;> omega

/-- Fresh tracker for the C6 witness. -/
def tW6 : ProgressTracker := { total := 4, processed := 2, successful := 1, failed := 1 }

/-- Witness for C6 at a concrete tracker and increment call. -/
theorem increment_counters_witness :
    trackerInvariant (tW6.increment true false (some "x"))
  ∧ tW6.processed ≤ (tW6.increment true false (some "x")).processed
  ∧ tW6.successful ≤ (tW6.increment true false (some "x")).successful
  ∧ tW6.failed ≤ (tW6.increment true false (some "x")).failed
  ∧ tW6.skipped ≤ (tW6.increment true false (some "x")).skipped :=
  increment_counters tW6 true false (some "x") (by unfold trackerInvariant; decide)

/-
Claim C10: percentage bounds.
-/

/-- Percentage never exceeds 100 for any counters. -/
theorem percentageOf_le_100 (p t : ℤ) : percentageOf p t ≤ 100 := by
  unfold percentageOf
  split
  · exact le_refl _
  · exact min_le_left _ _

/-- C10: the percentage property is at most 100, and is exactly 100 for a
tracker with total zero instead of dividing by zero. -/
theorem percentage_bounds (t : ProgressTracker) :
    t.percentage ≤ 100 ∧ (t.total = 0 → t.percentage = 100) := by
  unfold ProgressTracker.percentage
  refine ⟨percentageOf_le_100 _ _, ?_⟩
  intro h
  unfold percentageOf
  rw [if_pos h]

/-- Empty-total tracker for the C10 witness. -/
def tW10 : ProgressTracker := { total := 0, processed := 3 }

/-- Witness for C10 at a tracker with total zero. -/
theorem percentage_bounds_witness : tW10.percentage ≤ 100 ∧ tW10.percentage = 100 :=
  ⟨(percentage_bounds tW10).1, (percentage_bounds tW10).2 rfl⟩

/-
Claim C8: persisted progress is monotone and ends at exactly 100.
-/

/-- Percentage is monotone in the processed count for nonneg totals. -/
theorem percentageOf_mono {p q : ℤ} (t : ℤ) (hpq : p ≤ q) (ht : 0 ≤ t) :
    percentageOf p t ≤ percentageOf q t := by
  unfold percentageOf
  by_cases ht0 : t = 0
  · simp [ht0]
  · rw [if_neg ht0, if_neg ht0]
    apply min_le_min (le_refl _)
    apply mul_le_mul_of_nonneg_right _ (by norm_num)
    have htpos : (0 : ℚ) < (t : ℚ) := by
      have hzt : (0 : ℤ) < t := lt_of_le_of_ne ht (Ne.symm ht0)
      exact_mod_cast hzt
    exact (div_le_div_right htpos).mpr (by exact_mod_cast hpq)

/-- C8: the sequence of persisted progress values of one completed job (the
per-chunk tracker percentages, then the final worker write) is sorted
non-decreasing, its last value is exactly 100, and the worker success write
stores progress 100 with status Completed. -/
theorem progress_monotone (n cs : ℕ) (hcs : 0 < cs) :
    (persistedProgress n cs).Sorted (fun a b => a ≤ b)
  ∧ (persistedProgress n cs).getLast? = some 100
  ∧ (∀ (db : Store) (j : Job) (r : Obj) (now : ℚ) (r0 : Job),
      getJob db j.id = some r0 →
        (getJob (finishCompleted db j r now) j.id).map Job.progress = some 100
      ∧ (getJob (finishCompleted db j r now) j.id).map Job.status = some .completed) := by
  refine ⟨?_, ?_, ?_⟩
  · unfold persistedProgress List.Sorted
    rw [List.pairwise_append]
    refine ⟨?_, List.pairwise_singleton _ 100, ?_⟩
    · unfold chunkEnds
      rw [List.map_map]
      refine List.Pairwise.map _ (fun a b hab => ?_)
        (List.pairwise_lt_range (numChunks n cs))
      apply percentageOf_mono
      · have hmin : min ((a + 1) * cs) n ≤ min ((b + 1) * cs) n :=
          min_le_min
            (Nat.mul_le_mul_right cs (Nat.succ_le_succ (le_of_lt hab))) (le_refl n)
        exact_mod_cast hmin
      · exact Int.natCast_nonneg n
    · intro x hx y hy
      rcases List.mem_map.mp hx with ⟨p, _, hpx⟩
      have hy1 : y = 100 := by simpa using hy
      rw [hy1, ← hpx]
      exact percentageOf_le_100 _ _
  · unfold persistedProgress
    exact List.getLast?_concat _
  · intro db j r now r0 hget
    have hid : ({ j with
        status := JobStatus.completed
        result := some r
        progress := 100
        completed_at := some now } : Job).id = j.id := rfl
    unfold finishCompleted
    rw [← hid] at hget
    rw [getJob_updateJob_self hget]
    exact ⟨rfl, rfl⟩

/-- Witness for C8 with five items in chunks of two. -/
theorem progress_monotone_witness :
    (persistedProgress 5 2).Sorted (fun a b => a ≤ b)
  ∧ (persistedProgress 5 2).getLast? = some 100 :=
  ⟨(progress_monotone 5 2 (by decide)).1, (progress_monotone 5 2 (by decide)).2.1⟩

/-
Claim C7: jobs of unregistered types fail directly.
-/

theorem isPrefixOf_append_left {α : Type} [BEq α] (p : List α) :
    ∀ (a b : List α), p.isPrefixOf a = true → p.isPrefixOf (a ++ b) = true := by
  induction p with
  | nil => intro a b _; cases a ++ b <;> rfl
  | cons c p ih =>
    intro a b h
    cases a with
    | nil => cases h
    | cons x a2 =>
      simp only [List.isPrefixOf, List.cons_append] at h ⊢
      simp only [Bool.and_eq_true] at h ⊢
      exact ⟨h.1, ih a2 b h.2⟩

theorem mentions_noProcessorError (t : String) :
    mentions "no processor" (noProcessorError t) = true := by
  unfold mentions
  apply List.any_eq_true.mpr
  refine ⟨0, List.mem_range.mpr (Nat.succ_pos _), ?_⟩
  rw [List.drop_zero]
  unfold noProcessorError lowerChars
  rw [String.data_append, List.map_append]
  apply isPrefixOf_append_left
  decide

theorem mem_updateJob_id_status {db : Store} {jf : Job} {r2 : Job}
    (h : r2 ∈ updateJob db jf) (hid : r2.id = jf.id) : r2.status = jf.status := by
  unfold updateJob at h
  rcases List.mem_map.mp h with ⟨r, _, heq⟩
  by_cases hb : (r.id == jf.id) = true
  · rw [if_pos hb] at heq
    rw [← heq]
    rfl
  · rw [if_neg hb] at heq
    exfalso
    apply hb
    rw [heq, hid]
    simp

/-- C7: a claimed job whose type has no registered processor is written
directly to Failed with the no-processor error, independently of every
possible processor function (so none is invoked); the error mentions
no processor; and no later claim ever returns that job again. -/
theorem no_processor_fails_job (registered : List String) (db : Store) (now : ℚ)
    (j : Job) (hclaim : (claimNextJob db now).fst = some j)
    (hreg : registered.contains j.type = false)
    (hnd : (db.map Job.id).Nodup) :
    (∀ run1 run2, workerStep registered run1 db now = workerStep registered run2 db now)
  ∧ (∀ run, (getJob (workerStep registered run db now) j.id).map Job.status
      = some .failed)
  ∧ (∀ run, (getJob (workerStep registered run db now) j.id).map Job.error
      = some (some (noProcessorError j.type)))
  ∧ mentions "no processor" (noProcessorError j.type) = true
  ∧ (∀ run (times : List ℚ),
      ∀ j2 ∈ (claimSeq (workerStep registered run db now) times).fst, j2.id ≠ j.id) := by
  have hstep : ∀ run, workerStep registered run db now
      = finishFailed (claimNextJob db now).snd j (noProcessorError j.type) now := by
    intro run
    unfold workerStep
    rcases hc : claimNextJob db now with ⟨o, db1⟩
    have ho : o = some j := by
      have h2 := hclaim
      rw [hc] at h2
      exact h2
    subst ho
    show workerHandle registered run db1 j now
        = finishFailed db1 j (noProcessorError j.type) now
    unfold workerHandle
    rw [hreg]
    simp
  have hgj : getJob (claimNextJob db now).snd j.id = some j :=
    getJob_claim_snd_self hclaim hnd
  have hfail : getJob (finishFailed (claimNextJob db now).snd j
        (noProcessorError j.type) now) j.id
      = some (mergeRow { j with
          status := .failed
          error := some (noProcessorError j.type)
          completed_at := some now } j) := by
    unfold finishFailed
    exact getJob_updateJob_self hgj
  refine ⟨?_, ?_, ?_, mentions_noProcessorError j.type, ?_⟩
  · intro run1 run2
    rw [hstep run1, hstep run2]
  · intro run
    rw [hstep run, hfail]
    rfl
  · intro run
    rw [hstep run, hfail]
    rfl
  · intro run times j2 hj2 hid2eq
    rcases (claimSeq_sound times (workerStep registered run db now)).2 j2 hj2
      with ⟨r, hr_mem, hr_id, hr_q⟩
    rw [hstep run] at hr_mem
    unfold finishFailed at hr_mem
    have hrs : r.status = JobStatus.failed :=
      mem_updateJob_id_status hr_mem (by rw [hr_id, hid2eq])
    rw [hrs] at hr_q
    cases hr_q

/-- Store with one queued job of an unregistered type. -/
def dbW7 : Store := [mkJob "a" "batch_agent" .queued 0]

/-- The job as claimed from dbW7 at time 5. -/
def jW7 : Job := { mkJob "a" "batch_agent" .queued 0 with
  status := .running
  started_at := some 5 }

/-- Concrete processor function standing in for any registered processor. -/
def runW7 : Job → Except String Obj := fun _ => Except.ok []

/-- Witness for C7: with no processors registered the claimed job is read
back Failed. -/
theorem no_processor_fails_job_witness :
    (getJob (workerStep [] runW7 dbW7 5) jW7.id).map Job.status = some .failed :=
  (no_processor_fails_job [] dbW7 5 jW7 (by decide) (by decide) (by decide)).2.1 runW7

/-
Claim C9: update_job is an idempotent full overwrite keyed by id.
-/

theorem mergeRow_idem (j r : Job) : mergeRow j (mergeRow j r) = mergeRow j r := rfl

theorem updateJob_idem (db : Store) (j : Job) :
    updateJob (updateJob db j) j = updateJob db j := by
  unfold updateJob
  induction db with
  | nil => rfl
  | cons a l ih =>
    simp only [List.map_cons]
    by_cases hb : (a.id == j.id) = true <;>
      simp [hb, mergeRow_id, mergeRow_idem, ih] <;>
      intro x hx hxid <;>
      by_cases hx2 : x.id = j.id <;>
      simp_all [mergeRow_idem]

/-- C9: update_job overwrites status, progress, result, error, started_at,
completed_at and metadata of the row with the job id, and repeating the
identical update leaves the store unchanged. -/
theorem update_job_upsert :
    (∀ (db : Store) (j : Job), updateJob (updateJob db j) j = updateJob db j)
  ∧ (∀ (db : Store) (j r : Job), getJob db j.id = some r →
      getJob (updateJob db j) j.id = some (mergeRow j r)) :=
  ⟨updateJob_idem, fun _ _ _ h => getJob_updateJob_self h⟩

/-- Store with one row for the C9 witness. -/
def dbW9 : Store := [mkJob "u" "agent" .queued 0]

/-- Updated job value for the C9 witness. -/
def jobW9 : Job := { mkJob "u" "agent" .queued 0 with
  status := .running
  progress := 50
  started_at := some 1 }

/-- Witness for C9 at a concrete store and update. -/
theorem update_job_upsert_witness :
    updateJob (updateJob dbW9 jobW9) jobW9 = updateJob dbW9 jobW9
  ∧ getJob (updateJob dbW9 jobW9) jobW9.id
      = some (mergeRow jobW9 (mkJob "u" "agent" .queued 0)) :=
  ⟨update_job_upsert.1 dbW9 jobW9,
   update_job_upsert.2 dbW9 jobW9 (mkJob "u" "agent" .queued 0) (by decide)⟩

end OllamaCoder
